import Mathlib

/-!
Shallow embedding of the landing page in `front-end/app/page.tsx`
(component `Home`) and verification of its specification.

JavaScript strings are modelled as `List Char` (`s.slice(0, n)` is
`List.take n`, `s.slice(0, -1)` is `List.dropLast`, `s.length` is
`List.length`, truthiness of a string is non-emptiness).  Every scheduled
`setTimeout` is modelled by the delay (in milliseconds) attached to the
transition it performs; `none` marks a state change the effect performs
synchronously, with no timer.
-/

namespace AgenticChat

/-- The delay between revealing successive characters of a sample prompt
(the `50` in `setTimeout(..., 50)` of the typing effect). -/
def revealDelayMs : Nat := 50

/-- The pause after a prompt is fully revealed, before erasing starts
(the `2000` in `setTimeout(() => setIsTyping(false), 2000)`). -/
def holdDurationMs : Nat := 2000

/-- The delay between erasing successive characters
(the `30` in `setTimeout(..., 30)` of the typing effect). -/
def eraseDelayMs : Nat := 30

/-- The fixed simulated-processing delay of `handleSubmit`
(the `3000` in `setTimeout(() => setIsLoading(false), 3000)`). -/
def submitDelayMs : Nat := 3000

/-- The apostrophe character, written via its code point so the source
string of the second sample prompt can be reproduced exactly. -/
def apostrophe : Char := Char.ofNat 39

/-- First element of the `samplePrompts` array in `page.tsx`. -/
def samplePrompt0 : List Char :=
  "How do I create a dashboard for monitoring CPU usage?".toList

/-- Second element of the `samplePrompts` array in `page.tsx`; it contains
an apostrophe, spliced in via `apostrophe`. -/
def samplePrompt1 : List Char :=
  "What".toList ++ [apostrophe] ++ "s the best way to set up alerting rules?".toList

/-- Third element of the `samplePrompts` array in `page.tsx`. -/
def samplePrompt2 : List Char :=
  "Help me troubleshoot high memory usage alerts".toList

/-- The `samplePrompts` array of `page.tsx`. -/
def samplePrompts : List (List Char) :=
  [samplePrompt0, samplePrompt1, samplePrompt2]

/-- The state owned by the typing-animation effect: the `currentSampleIndex`,
`displayedText` and `isTyping` `useState` hooks of `Home`. -/
structure AnimState where
  currentSampleIndex : Nat
  displayedText : List Char
  isTyping : Bool
deriving DecidableEq, Repr

/-- The initial animation state on mount:
`useState(0)`, `useState('')`, `useState(true)`. -/
def animInit : AnimState := ⟨0, [], true⟩

/-- The JavaScript array access `samplePrompts[currentSampleIndex]`; out of
range (never reached from the mount state) it defaults to the empty
string. -/
def promptAt (prompts : List (List Char)) (i : Nat) : List Char :=
  prompts.getD i []

/-- One run of the typing-animation `useEffect` body: the next animation
state together with the delay of the `setTimeout` that produces it
(`none` for the advance branch, which calls `setCurrentSampleIndex` and
`setIsTyping` synchronously, scheduling no timer). -/
def animEffect (prompts : List (List Char)) (s : AnimState) : AnimState × Option Nat :=
  let currentPrompt := promptAt prompts s.currentSampleIndex
  if s.isTyping then
    if s.displayedText.length < currentPrompt.length then
      ({ s with displayedText := currentPrompt.take (s.displayedText.length + 1) },
        some revealDelayMs)
    else
      ({ s with isTyping := false }, some holdDurationMs)
  else
    if 0 < s.displayedText.length then
      ({ s with displayedText := s.displayedText.dropLast }, some eraseDelayMs)
    else
      ({ s with currentSampleIndex := (s.currentSampleIndex + 1) % prompts.length,
                isTyping := true }, none)

/-- The state transformation of one run of the typing-animation effect. -/
def stepAnim (prompts : List (List Char)) (s : AnimState) : AnimState :=
  (animEffect prompts s).1

/-- The delay (ms) of the timeout scheduled by one run of the typing
effect, `none` when the run performs its update synchronously. -/
def scheduledDelay (prompts : List (List Char)) (s : AnimState) : Option Nat :=
  (animEffect prompts s).2

/-- One observable (timer-driven) step of the animator: the timeout
callback fires, and if the resulting effect run schedules no timer (the
advance branch), that run executes synchronously as well before any
further delay elapses. -/
def tickAnim (prompts : List (List Char)) (s : AnimState) : AnimState :=
  let s1 := stepAnim prompts s
  if (scheduledDelay prompts s1).isSome then s1 else stepAnim prompts s1

/-- The phases named by the specification for the animator. -/
inductive Phase where
  | Growing
  | Holding
  | Shrinking
deriving DecidableEq, Repr

/-- The specification phase an animation state is in: `isTyping` with the
text still short of the prompt is Growing, `isTyping` with the full text is
Holding (the 2000 ms pause), and not `isTyping` is Shrinking. -/
def phaseOf (prompts : List (List Char)) (s : AnimState) : Phase :=
  if s.isTyping then
    if s.displayedText.length < (promptAt prompts s.currentSampleIndex).length then
      Phase.Growing
    else
      Phase.Holding
  else
    Phase.Shrinking

/-- The page-level state of `Home`: the `query`, `isLoading`,
`webSearchEnabled` hooks, plus the animator's state. -/
structure PageState where
  query : List Char
  isLoading : Bool
  webSearchEnabled : Bool
  anim : AnimState
deriving DecidableEq, Repr

/-- Characters removed by JavaScript `String.prototype.trim` (the ASCII
white-space subset; the source queries contain no exotic Unicode spaces). -/
def isJsSpace (c : Char) : Bool :=
  c = ' ' || c = '\t' || c = '\n' || c = '\r' || c = '\x0b' || c = '\x0c'

/-- JavaScript `query.trim()`: strip white space from both ends. -/
def jsTrim (q : List Char) : List Char :=
  ((q.dropWhile isJsSpace).reverse.dropWhile isJsSpace).reverse

/-- `handleSubmit` of `page.tsx`: after `preventDefault`, if `query.trim()`
is truthy (non-empty) it sets `isLoading` to `true` and schedules a
3000 ms timeout; otherwise nothing happens.  The second component is the
delay of the scheduled timeout, whose callback is `submitTimerCallback`. -/
def handleSubmit (s : PageState) : PageState × Option Nat :=
  if jsTrim s.query ≠ [] then
    ({ s with isLoading := true }, some submitDelayMs)
  else
    (s, none)

/-- The callback of the timeout scheduled by `handleSubmit`:
`setIsLoading(false)`. -/
def submitTimerCallback (s : PageState) : PageState :=
  { s with isLoading := false }

/-- The `key` and modifier fields of a DOM keyboard event read (or
readable) by `handleKeyDown`. -/
structure KeyboardEvent where
  key : List Char
  shiftKey : Bool
  ctrlKey : Bool
  altKey : Bool
  metaKey : Bool
deriving DecidableEq, Repr

/-- The character list of the DOM key name "Enter". -/
def enterKeyChars : List Char := "Enter".toList

/-- `handleKeyDown` of `page.tsx`: on `e.key === 'Enter' && !e.shiftKey`
it calls `preventDefault` and `handleSubmit`; otherwise it does nothing. -/
def handleKeyDown (e : KeyboardEvent) (s : PageState) : PageState × Option Nat :=
  if e.key = enterKeyChars ∧ e.shiftKey = false then handleSubmit s else (s, none)

/-- The `disabled` attribute of the submit button:
`!query.trim() || isLoading`. -/
def submitButtonDisabled (s : PageState) : Bool :=
  (jsTrim s.query).isEmpty || s.isLoading

/-- The `disabled` attribute of the text input: `isLoading`. -/
def inputDisabled (s : PageState) : Bool :=
  s.isLoading

/-- The submit operation as reachable by clicking the submit control: a
disabled button delivers no click, an enabled one submits the form,
running `handleSubmit`. -/
def clickSubmit (s : PageState) : PageState × Option Nat :=
  if submitButtonDisabled s then (s, none) else handleSubmit s

/-- The submit operation as reachable from the text input: a disabled
input delivers no key events; an enabled one runs `handleKeyDown`. -/
def keyDownFromInput (e : KeyboardEvent) (s : PageState) : PageState × Option Nat :=
  if inputDisabled s then (s, none) else handleKeyDown e s

/-- Editing the query through the input's `onChange`; a disabled input
delivers no change events. -/
def editQuery (newQuery : List Char) (s : PageState) : PageState :=
  if inputDisabled s then s else { s with query := newQuery }

/-- The web-search toggle button's `onClick`:
`setWebSearchEnabled(!webSearchEnabled)`. -/
def toggleWebSearch (s : PageState) : PageState :=
  { s with webSearchEnabled := !s.webSearchEnabled }

/-- One run of the typing-animation effect at page level: it writes only
the animator's own hooks. -/
def stepPage (s : PageState) : PageState :=
  { s with anim := stepAnim samplePrompts s.anim }

/-- The two-element prompt list of the specification's worked example. -/
def promptsHiYo : List (List Char) := [['H', 'i'], ['Y', 'o']]

/-- A page state with query "hi", not loading, used to exercise the
submit and keyboard handlers on concrete inputs. -/
def readyState : PageState := ⟨['h', 'i'], false, false, animInit⟩

/-- A page state inside the simulated 3-second loading window. -/
def loadingState : PageState := ⟨['h', 'i'], true, false, animInit⟩

/-- An Enter key press with the control modifier held (and shift not). -/
def ctrlEnterEvent : KeyboardEvent := ⟨enterKeyChars, false, true, false, false⟩

/-- An Enter key press with the shift modifier held. -/
def shiftEnterEvent : KeyboardEvent := ⟨enterKeyChars, true, false, false, false⟩

/-- An Enter key press with no modifier held. -/
def plainEnterEvent : KeyboardEvent := ⟨enterKeyChars, false, false, false, false⟩

/-- A growing effect run (`isTyping`, text still short of the prompt)
appends the next character by re-taking one more character of the
prompt. -/
lemma stepAnim_grow (prompts : List (List Char)) (s : AnimState)
    (hT : s.isTyping = true)
    (hlt : s.displayedText.length < (promptAt prompts s.currentSampleIndex).length) :
    stepAnim prompts s = { s with displayedText :=
      (promptAt prompts s.currentSampleIndex).take (s.displayedText.length + 1) } := by
  simp [stepAnim, animEffect, hT, hlt]

/-- A holding effect run (`isTyping`, prompt fully revealed) switches
`isTyping` off and changes nothing else. -/
lemma stepAnim_hold (prompts : List (List Char)) (s : AnimState)
    (hT : s.isTyping = true)
    (hge : ¬ s.displayedText.length < (promptAt prompts s.currentSampleIndex).length) :
    stepAnim prompts s = { s with isTyping := false } := by
  simp [stepAnim, animEffect, hT, hge]

/-- A shrinking effect run (not `isTyping`, text non-empty) removes the
last character. -/
lemma stepAnim_shrink (prompts : List (List Char)) (s : AnimState)
    (hT : s.isTyping = false) (hpos : 0 < s.displayedText.length) :
    stepAnim prompts s = { s with displayedText := s.displayedText.dropLast } := by
  simp [stepAnim, animEffect, hT, hpos]

/-- An advance effect run (not `isTyping`, text empty) moves the index to
the next prompt modulo the list length and switches `isTyping` on. -/
lemma stepAnim_advance (prompts : List (List Char)) (s : AnimState)
    (hT : s.isTyping = false) (hnil : s.displayedText = []) :
    stepAnim prompts s = { s with
      currentSampleIndex := (s.currentSampleIndex + 1) % prompts.length,
      isTyping := true } := by
  simp [stepAnim, animEffect, hT, hnil]

/-- One animation-effect run preserves the animator's invariant: the index
stays in range and the displayed text stays a prefix of the prompt at the
index. -/
lemma animInv_step (prompts : List (List Char)) (hlen : 0 < prompts.length)
    (s : AnimState) (h1 : s.currentSampleIndex < prompts.length)
    (h2 : s.displayedText <+: promptAt prompts s.currentSampleIndex) :
    (stepAnim prompts s).currentSampleIndex < prompts.length ∧
    (stepAnim prompts s).displayedText <+:
      promptAt prompts (stepAnim prompts s).currentSampleIndex := by
  by_cases hT : s.isTyping = true
  · by_cases hlt : s.displayedText.length < (promptAt prompts s.currentSampleIndex).length
    · rw [stepAnim_grow prompts s hT hlt]
      exact ⟨h1, List.take_prefix _ _⟩
    · rw [stepAnim_hold prompts s hT hlt]
      exact ⟨h1, h2⟩
  · have hF : s.isTyping = false := by
      cases hb : s.isTyping
      · rfl
      · exact absurd hb hT
    by_cases hpos : 0 < s.displayedText.length
    · rw [stepAnim_shrink prompts s hF hpos]
      exact ⟨h1, ( List.dropLast_prefix _).trans h2⟩
    · have hnil : s.displayedText = [] :=
        List.eq_nil_of_length_eq_zero (Nat.eq_zero_of_not_pos hpos)
      rw [stepAnim_advance prompts s hF hnil]
      exact ⟨Nat.mod_lt _ hlen, by rw [hnil]; exact List.nil_prefix⟩

/-- Every state the animator reaches from the mount state satisfies the
invariant. -/
lemma animInv_reachable (n : Nat) :
    ((stepAnim samplePrompts)^[n] animInit).currentSampleIndex < samplePrompts.length ∧
    ((stepAnim samplePrompts)^[n] animInit).displayedText <+:
      promptAt samplePrompts ((stepAnim samplePrompts)^[n] animInit).currentSampleIndex := by
  induction n with
  | zero => exact ⟨by decide, List.nil_prefix⟩
  | succ n ih =>
      rw [Function.iterate_succ_apply']
      exact animInv_step samplePrompts (by decide) _ ih.1 ih.2

/-- Growing from the empty text at index `i`: after `k ≤ L` effect runs the
displayed text is the `k`-character prefix of the prompt. -/
lemma animGrow_iter (prompts : List (List Char)) (i : Nat) :
    ∀ k, k ≤ (promptAt prompts i).length →
      (stepAnim prompts)^[k] ⟨i, [], true⟩ = ⟨i, (promptAt prompts i).take k, true⟩ := by
  intro k
  induction k with
  | zero => intro _; simp
  | succ k ih =>
      intro h
      have hk : k < (promptAt prompts i).length := Nat.lt_of_succ_le h
      have hlen : ((promptAt prompts i).take k).length = k := by
        simp [List.length_take, Nat.min_eq_left (Nat.le_of_lt hk)]
      rw [Function.iterate_succ_apply', ih (Nat.le_of_lt hk),
        stepAnim_grow prompts _ rfl (by rw [hlen]; exact hk)]
      simp [hlen]

/-- Shrinking from the full prompt at index `i`: after `k ≤ L` effect runs
the displayed text is the `(L - k)`-character prefix of the prompt. -/
lemma animShrink_iter (prompts : List (List Char)) (i : Nat) :
    ∀ k, k ≤ (promptAt prompts i).length →
      (stepAnim prompts)^[k] ⟨i, promptAt prompts i, false⟩
        = ⟨i, (promptAt prompts i).take ((promptAt prompts i).length - k), false⟩ := by
  intro k
  induction k with
  | zero => intro _; simp
  | succ k ih =>
      intro h
      have hk : k < (promptAt prompts i).length := Nat.lt_of_succ_le h
      have hlen : ((promptAt prompts i).take ((promptAt prompts i).length - k)).length
          = (promptAt prompts i).length - k := by
        simp [List.length_take, Nat.min_eq_left (Nat.sub_le _ _)]
      have hdrop : ((promptAt prompts i).take ((promptAt prompts i).length - k)).dropLast
          = (promptAt prompts i).take ((promptAt prompts i).length - (k + 1)) := by
        rw [List.dropLast_eq_take, hlen, List.take_take]
        congr 1
        omega
      rw [Function.iterate_succ_apply', ih (Nat.le_of_lt hk),
        stepAnim_shrink prompts _ rfl (by rw [hlen]; exact Nat.sub_pos_of_lt hk)]
      simp [hdrop]

/-- One full reveal-hold-erase cycle at index `i` takes `2·L + 2` effect
runs and lands on the canonical state at the next index (mod the list
length). -/
lemma animCycle (prompts : List (List Char)) (i : Nat) :
    (stepAnim prompts)^[2 * (promptAt prompts i).length + 2] ⟨i, [], true⟩
      = ⟨(i + 1) % prompts.length, [], true⟩ := by
  have hsplit : 2 * (promptAt prompts i).length + 2
      = 1 + ((promptAt prompts i).length + (1 + (promptAt prompts i).length)) := by
    omega
  rw [hsplit, Function.iterate_add_apply, Function.iterate_add_apply,
    Function.iterate_add_apply]
  rw [animGrow_iter prompts i _ (le_refl _), List.take_length, Function.iterate_one]
  rw [stepAnim_hold prompts ⟨i, promptAt prompts i, true⟩ rfl (by simp)]
  rw [animShrink_iter prompts i _ (le_refl _), Nat.sub_self, List.take_zero]
  rw [stepAnim_advance prompts ⟨i, [], false⟩ rfl rfl]

/-- C1: every state the Typing Animator reaches from the mount state
(index 0, empty text, typing) has `displayedText` a contiguous prefix of
`samplePrompts[currentSampleIndex]`, of length between 0 and that
string's length, and this is preserved by every animation step. -/
theorem c1_animator_invariant (n : Nat) :
    ((stepAnim samplePrompts)^[n] animInit).displayedText <+:
      promptAt samplePrompts
        ((stepAnim samplePrompts)^[n] animInit).currentSampleIndex ∧
    ((stepAnim samplePrompts)^[n] animInit).displayedText.length ≤
      (promptAt samplePrompts
        ((stepAnim samplePrompts)^[n] animInit).currentSampleIndex).length :=
  ⟨(animInv_reachable n).2, (animInv_reachable n).2.length_le⟩

/-- C2: with the prompt list `["Hi", "Yo"]`, the observable (timer-driven)
animator steps from (index 0, empty text, Growing) produce "H", then
"Hi" entering Holding, then Shrinking with "Hi" unchanged, then "H",
then the empty text at index 1 in Growing. -/
theorem c2_hi_yo_trace :
    ((tickAnim promptsHiYo)^[1] animInit).displayedText = ['H'] ∧
    ((tickAnim promptsHiYo)^[2] animInit = ⟨0, ['H', 'i'], true⟩ ∧
      phaseOf promptsHiYo ((tickAnim promptsHiYo)^[2] animInit) = Phase.Holding) ∧
    ((tickAnim promptsHiYo)^[3] animInit = ⟨0, ['H', 'i'], false⟩ ∧
      phaseOf promptsHiYo ((tickAnim promptsHiYo)^[3] animInit) = Phase.Shrinking) ∧
    ((tickAnim promptsHiYo)^[4] animInit).displayedText = ['H'] ∧
    ((tickAnim promptsHiYo)^[5] animInit = ⟨1, [], true⟩ ∧
      phaseOf promptsHiYo ((tickAnim promptsHiYo)^[5] animInit) = Phase.Growing) := by
  decide

/-- C3: through the interface, a submission is accepted exactly when the
trimmed query is non-empty and `isLoading` is false; in every other case
both the button click and the Enter key press leave the whole page state
unchanged and schedule nothing.  (The raw `handleSubmit` handler checks
only the query; the `isLoading` half of the guard is the `disabled`
attribute on the button and on the input, which makes the handler
unreachable while loading.) -/
theorem c3_submit_guard (s : PageState) :
    (jsTrim s.query ≠ [] → s.isLoading = false →
      clickSubmit s = ({ s with isLoading := true }, some submitDelayMs) ∧
      ∀ e : KeyboardEvent, e.key = enterKeyChars → e.shiftKey = false →
        keyDownFromInput e s = ({ s with isLoading := true }, some submitDelayMs)) ∧
    ((jsTrim s.query = [] ∨ s.isLoading = true) →
      clickSubmit s = (s, none) ∧
      ∀ e : KeyboardEvent, keyDownFromInput e s = (s, none)) := by
  constructor
  · intro hq hl
    have hbd : submitButtonDisabled s = false := by
      simp [submitButtonDisabled, hl, hq]
    have hhs : handleSubmit s = ({ s with isLoading := true }, some submitDelayMs) := by
      simp [handleSubmit, hq]
    refine ⟨by simp [clickSubmit, hbd, hhs], ?_⟩
    intro e he hsh
    simp [keyDownFromInput, inputDisabled, hl, handleKeyDown, he, hsh, hhs]
  · intro h
    rcases h with hq | hl
    · have hhs : handleSubmit s = (s, none) := by simp [handleSubmit, hq]
      have hkd : ∀ e : KeyboardEvent, handleKeyDown e s = (s, none) := by
        intro e
        unfold handleKeyDown
        split_ifs <;> simp [hhs]
      refine ⟨by simp [clickSubmit, submitButtonDisabled, hq], ?_⟩
      intro e
      unfold keyDownFromInput
      split_ifs <;> simp [hkd]
    · refine ⟨by simp [clickSubmit, submitButtonDisabled, hl], ?_⟩
      intro e
      simp [keyDownFromInput, inputDisabled, hl]

/-- C3 witness: with query "hi" and not loading the click is accepted;
with the same state already loading it is a no-op. -/
theorem c3_submit_guard_witness :
    clickSubmit readyState = ({ readyState with isLoading := true }, some submitDelayMs) ∧
    clickSubmit loadingState = (loadingState, none) :=
  ⟨((c3_submit_guard readyState).1 (by decide) rfl).1,
   ((c3_submit_guard loadingState).2 (Or.inr rfl)).1⟩

/-- C4 counterexample: `handleKeyDown` tests only `shiftKey`, so an Enter
press with the control modifier held (shift not held) on an enabled
input does trigger a submission, contradicting the claim that any
modifier suppresses it. -/
theorem c4_counterexample :
    ctrlEnterEvent.ctrlKey = true ∧ ctrlEnterEvent.key = enterKeyChars ∧
    ctrlEnterEvent.shiftKey = false ∧
    keyDownFromInput ctrlEnterEvent readyState
      = ({ readyState with isLoading := true }, some submitDelayMs) ∧
    (keyDownFromInput ctrlEnterEvent readyState).1.isLoading = true := by
  decide

/-- C4 (amended): an Enter press with the shift modifier held never
triggers submission, and an Enter press without shift (any other
modifiers notwithstanding) performs the same submit action as clicking
the submit control, when the submit precondition holds. -/
theorem c4_amended_shift_only (e : KeyboardEvent) (s : PageState) :
    (e.shiftKey = true → keyDownFromInput e s = (s, none)) ∧
    (e.key = enterKeyChars → e.shiftKey = false → jsTrim s.query ≠ [] →
      s.isLoading = false →
      keyDownFromInput e s = clickSubmit s ∧
      keyDownFromInput e s = ({ s with isLoading := true }, some submitDelayMs)) := by
  constructor
  · intro hsh
    unfold keyDownFromInput
    split_ifs with h
    · rfl
    · simp [handleKeyDown, hsh]
  · intro he hsh hq hl
    have hhs : handleSubmit s = ({ s with isLoading := true }, some submitDelayMs) := by
      simp [handleSubmit, hq]
    have hk : keyDownFromInput e s = ({ s with isLoading := true }, some submitDelayMs) := by
      simp [keyDownFromInput, inputDisabled, hl, handleKeyDown, he, hsh, hhs]
    have hc : clickSubmit s = ({ s with isLoading := true }, some submitDelayMs) := by
      simp [clickSubmit, submitButtonDisabled, hl, hq, hhs]
    exact ⟨hk.trans hc.symm, hk⟩

/-- C4 witness: on query "hi", shift+Enter is ignored while a plain Enter
submits. -/
theorem c4_amended_shift_only_witness :
    keyDownFromInput shiftEnterEvent readyState = (readyState, none) ∧
    keyDownFromInput plainEnterEvent readyState
      = ({ readyState with isLoading := true }, some submitDelayMs) :=
  ⟨(c4_amended_shift_only shiftEnterEvent readyState).1 rfl,
   ((c4_amended_shift_only plainEnterEvent readyState).2 rfl rfl (by decide) rfl).2⟩

/-- C5: a submission with non-empty trimmed query while not loading sets
`isLoading` to true at once, changes nothing else, and schedules exactly
one timeout of 3000 ms whose callback restores the original state by
setting `isLoading` back to false — the callback touches no other
field. -/
theorem c5_submit_timer (s : PageState) (hq : jsTrim s.query ≠ [])
    (hl : s.isLoading = false) :
    handleSubmit s = ({ s with isLoading := true }, some submitDelayMs) ∧
    submitDelayMs = 3000 ∧
    submitTimerCallback (handleSubmit s).1 = s ∧
    (∀ t : PageState, submitTimerCallback t = { t with isLoading := false }) := by
  have h1 : handleSubmit s = ({ s with isLoading := true }, some submitDelayMs) := by
    simp [handleSubmit, hq]
  refine ⟨h1, rfl, ?_, fun t => rfl⟩
  rw [h1]
  obtain ⟨q, l, w, a⟩ := s
  cases hl
  rfl

/-- C5 witness: the concrete submission on query "hi". -/
theorem c5_submit_timer_witness :
    handleSubmit readyState = ({ readyState with isLoading := true }, some submitDelayMs) ∧
    submitTimerCallback (handleSubmit readyState).1 = readyState :=
  ⟨(c5_submit_timer readyState (by decide) rfl).1,
    (c5_submit_timer readyState (by decide) rfl).2.2.1⟩

/-- C6: for any non-empty prompt list, the only index change an effect run
can make is to `(currentSampleIndex + 1) % length`, the index stays in
range, and one full cycle from the canonical state at index `i` lands on
the canonical state at `(i + 1) % length` — so the index visits every
index in order and wraps around indefinitely. -/
theorem c6_index_cycles (prompts : List (List Char)) (h : 1 ≤ prompts.length) :
    (∀ s : AnimState,
      (stepAnim prompts s).currentSampleIndex ≠ s.currentSampleIndex →
      (stepAnim prompts s).currentSampleIndex
        = (s.currentSampleIndex + 1) % prompts.length) ∧
    (∀ s : AnimState, s.currentSampleIndex < prompts.length →
      (stepAnim prompts s).currentSampleIndex < prompts.length) ∧
    (∀ i : Nat,
      (stepAnim prompts)^[2 * (promptAt prompts i).length + 2] ⟨i, [], true⟩
        = ⟨(i + 1) % prompts.length, [], true⟩) := by
  refine ⟨?_, ?_, fun i => animCycle prompts i⟩
  · intro s hne
    by_cases hT : s.isTyping = true
    · by_cases hlt : s.displayedText.length < (promptAt prompts s.currentSampleIndex).length
      · rw [stepAnim_grow prompts s hT hlt] at hne
        exact absurd rfl hne
      · rw [stepAnim_hold prompts s hT hlt] at hne
        exact absurd rfl hne
    · have hF : s.isTyping = false := by
        cases hb : s.isTyping
        · rfl
        · exact absurd hb hT
      by_cases hpos : 0 < s.displayedText.length
      · rw [stepAnim_shrink prompts s hF hpos] at hne
        exact absurd rfl hne
      · have hnil : s.displayedText = [] :=
          List.eq_nil_of_length_eq_zero (Nat.eq_zero_of_not_pos hpos)
        rw [stepAnim_advance prompts s hF hnil]
  · intro s hs
    by_cases hT : s.isTyping = true
    · by_cases hlt : s.displayedText.length < (promptAt prompts s.currentSampleIndex).length
      · rw [stepAnim_grow prompts s hT hlt]
        exact hs
      · rw [stepAnim_hold prompts s hT hlt]
        exact hs
    · have hF : s.isTyping = false := by
        cases hb : s.isTyping
        · rfl
        · exact absurd hb hT
      by_cases hpos : 0 < s.displayedText.length
      · rw [stepAnim_shrink prompts s hF hpos]
        exact hs
      · have hnil : s.displayedText = [] :=
          List.eq_nil_of_length_eq_zero (Nat.eq_zero_of_not_pos hpos)
        rw [stepAnim_advance prompts s hF hnil]
        exact Nat.mod_lt _ h

/-- C6 witness: with the one-element list `["a"]` the cycle returns to
index 0 after one full reveal-hold-erase round of four effect runs. -/
theorem c6_index_cycles_witness :
    (stepAnim [['a']])^[2 * (promptAt [['a']] 0).length + 2]
        (⟨0, [], true⟩ : AnimState)
      = ⟨(0 + 1) % ([['a']] : List (List Char)).length, [], true⟩ :=
  (c6_index_cycles [['a']] (by decide)).2.2 0

/-- C7: an animation effect run at page level writes only the animator's
own state; `query`, `isLoading` and `webSearchEnabled` are untouched. -/
theorem c7_animator_frame (s : PageState) :
    (stepPage s).query = s.query ∧ (stepPage s).isLoading = s.isLoading ∧
    (stepPage s).webSearchEnabled = s.webSearchEnabled ∧
    (stepPage s).anim = stepAnim samplePrompts s.anim :=
  ⟨rfl, rfl, rfl, rfl⟩

/-- C8: the web-search toggle flips only `webSearchEnabled`, and no other
operation — submit, key handling, the disabled attributes, or the
animator step — depends on that flag: each commutes with overwriting
it. -/
theorem c8_toggle_frame (s : PageState) (b : Bool) (e : KeyboardEvent) :
    (toggleWebSearch s).webSearchEnabled = !s.webSearchEnabled ∧
    (toggleWebSearch s).query = s.query ∧
    (toggleWebSearch s).isLoading = s.isLoading ∧
    (toggleWebSearch s).anim = s.anim ∧
    handleSubmit { s with webSearchEnabled := b }
      = ({ (handleSubmit s).1 with webSearchEnabled := b }, (handleSubmit s).2) ∧
    handleKeyDown e { s with webSearchEnabled := b }
      = ({ (handleKeyDown e s).1 with webSearchEnabled := b }, (handleKeyDown e s).2) ∧
    keyDownFromInput e { s with webSearchEnabled := b }
      = ({ (keyDownFromInput e s).1 with webSearchEnabled := b },
          (keyDownFromInput e s).2) ∧
    clickSubmit { s with webSearchEnabled := b }
      = ({ (clickSubmit s).1 with webSearchEnabled := b }, (clickSubmit s).2) ∧
    stepPage { s with webSearchEnabled := b } = { stepPage s with webSearchEnabled := b } ∧
    submitButtonDisabled { s with webSearchEnabled := b } = submitButtonDisabled s ∧
    inputDisabled { s with webSearchEnabled := b } = inputDisabled s := by
  refine ⟨rfl, rfl, rfl, rfl, ?_, ?_, ?_, ?_, rfl, rfl, rfl⟩
  · unfold handleSubmit
    split_ifs <;> rfl
  · unfold handleKeyDown handleSubmit
    split_ifs <;> rfl
  · unfold keyDownFromInput inputDisabled handleKeyDown handleSubmit
    split_ifs <;> rfl
  · unfold clickSubmit submitButtonDisabled handleSubmit
    split_ifs <;> rfl

/-- C9: the effect schedules the 30 ms erase delay on every shrinking
step, the 50 ms reveal delay on every growing step and the 2000 ms hold
after a full reveal; the erase delay is strictly smaller than the reveal
delay and the hold is longer than the reveal delay. -/
theorem c9_delay_order (prompts : List (List Char)) (s : AnimState) :
    (s.isTyping = false → 0 < s.displayedText.length →
      scheduledDelay prompts s = some eraseDelayMs) ∧
    (s.isTyping = true →
      s.displayedText.length < (promptAt prompts s.currentSampleIndex).length →
      scheduledDelay prompts s = some revealDelayMs) ∧
    (s.isTyping = true →
      ¬ s.displayedText.length < (promptAt prompts s.currentSampleIndex).length →
      scheduledDelay prompts s = some holdDurationMs) ∧
    eraseDelayMs < revealDelayMs ∧ revealDelayMs < holdDurationMs := by
  refine ⟨?_, ?_, ?_, by decide, by decide⟩ <;>
    intro h1 h2 <;> simp [scheduledDelay, animEffect, h1, h2]

/-- C9 witness: the three delays at concrete states of the one-prompt
list `["a"]`. -/
theorem c9_delay_order_witness :
    scheduledDelay [['a']] ⟨0, ['a'], false⟩ = some eraseDelayMs ∧
    scheduledDelay [['a']] ⟨0, [], true⟩ = some revealDelayMs ∧
    scheduledDelay [['a']] ⟨0, ['a'], true⟩ = some holdDurationMs :=
  ⟨(c9_delay_order [['a']] ⟨0, ['a'], false⟩).1 rfl (by decide),
   (c9_delay_order [['a']] ⟨0, [], true⟩).2.1 rfl (by decide),
   (c9_delay_order [['a']] ⟨0, ['a'], true⟩).2.2.1 rfl (by decide)⟩

/-- C10: the submit button's `disabled` attribute is set exactly when the
trimmed query is empty or `isLoading` holds, the input's exactly when
`isLoading` holds, and while loading the query cannot be edited and no
submission can be initiated from the interface. -/
theorem c10_disabled_controls (s : PageState) :
    (submitButtonDisabled s = true ↔ (jsTrim s.query = [] ∨ s.isLoading = true)) ∧
    (inputDisabled s = true ↔ s.isLoading = true) ∧
    (s.isLoading = true →
      (∀ q : List Char, editQuery q s = s) ∧ clickSubmit s = (s, none) ∧
      ∀ e : KeyboardEvent, keyDownFromInput e s = (s, none)) := by
  refine ⟨?_, Iff.rfl, ?_⟩
  · simp [submitButtonDisabled]
  · intro h
    refine ⟨fun q => by simp [editQuery, inputDisabled, h], ?_,
      fun e => by simp [keyDownFromInput, inputDisabled, h]⟩
    simp [clickSubmit, submitButtonDisabled, h]

/-- C10 witness: inside the loading window the interface is inert. -/
theorem c10_disabled_controls_witness :
    clickSubmit loadingState = (loadingState, none) ∧
    editQuery ['x'] loadingState = loadingState :=
  ⟨((c10_disabled_controls loadingState).2.2 rfl).2.1,
   ((c10_disabled_controls loadingState).2.2 rfl).1 ['x']⟩

end AgenticChat
